import Mathlib

/-!
Verification of the Sudoku engine (`engine.js`) of this repository.

The engine is embedded shallowly:

* a JS 9×9 board (`Array` of `Array`s of numbers, `0` = blank) becomes
  `Board := List (List Nat)`; reading `puzzle[r][c]` inside the 0–8 loops
  becomes `getCell` (JS yields `undefined` out of range, which compares
  unequal to every digit, so the in-range default `0` is never hit by the
  in-range loops; the out-of-range behaviour is modelled separately by
  the `Except`-valued variants used for the dimension-error analysis);
* `Math.floor(Math.random() * n)` becomes `randBelow n g` where
  `g : Rng` is the stream of pending random outcomes, one natural per
  call, reduced modulo `n` (so every sequence of outcomes of the real
  generator corresponds to some stream, and conversely);
* in-place mutation becomes explicit state passing: every function
  returns the new board / candidate array / stream alongside its result;
* the `while` loop of `removeCellsWithGuarantee`, which can spin forever
  on cells that are already empty, gets an explicit fuel and returns
  `none` when the fuel is exhausted (one fuel unit per loop iteration);
* the recursions of `fillCell` / `solveCell` advance one cell per call,
  `row === 9` being reached exactly when 81 cells have been passed, so
  they recurse structurally on the number `rem` of cells still ahead,
  with `rem = 81 - pos` and the current cell at `row = pos / 9`,
  `col = pos % 9`.  The candidate array `values` of `fillCell` is the
  same mutated array across all recursive calls (it is re-shuffled by
  deeper calls while an outer loop is still indexing into it), so it is
  threaded through every call and the loop re-reads it by index.
-/

namespace Engine

/-- A 9×9 Sudoku board, row major; `0` is a blank cell. -/
abbrev Board := List (List Nat)

/-- The pending outcomes of `Math.random`, consumed from the front
(an exhausted stream keeps yielding `0`). -/
abbrev Rng := List Nat

/-- `Math.floor(Math.random() * n)`: consume one stream element, reduce it
modulo `n` (an exhausted stream yields `0`). -/
def randBelow (n : Nat) : Rng → Nat × Rng
  | [] => (0, [])
  | x :: rest => (x % n, rest)

/-- `puzzle[r][c]` for the in-range loops of the engine. -/
def getCell (p : Board) (r c : Nat) : Nat :=
  (p.getD r []).getD c 0

/-- `puzzle[r][c] = v` (an out-of-range index leaves the board unchanged,
matching `List.set`; the engine only writes in range). -/
def setCell (p : Board) (r c v : Nat) : Board :=
  p.set r ((p.getD r []).set c v)

/-- `createBlankPuzzle()`: a 9×9 board of `0`s. -/
def createBlankPuzzle : Board :=
  List.replicate 9 (List.replicate 9 0)

/-- The column indices `c = 0 .. 8` of the row/column scan loops. -/
def idx9 : List Nat := [0, 1, 2, 3, 4, 5, 6, 7, 8]

/-- The offsets `0 .. 2` of the box scan loops. -/
def idx3 : List Nat := [0, 1, 2]

/-- `checkRow(row, num, puzzle)`: `num` does not occur in row `row`. -/
def checkRow (row num : Nat) (p : Board) : Bool :=
  idx9.all fun c => getCell p row c != num

/-- `checkCol(col, num, puzzle)`: `num` does not occur in column `col`. -/
def checkCol (col num : Nat) (p : Board) : Bool :=
  idx9.all fun r => getCell p r col != num

/-- `getBox(row, col)`: the 1-based number of the 3×3 box of `(row, col)`. -/
def getBox (row col : Nat) : Nat :=
  row / 3 * 3 + col / 3 + 1

/-- `checkBox(box, num, puzzle)`: `num` does not occur in box `box`. -/
def checkBox (box num : Nat) (p : Board) : Bool :=
  idx3.all fun i => idx3.all fun j =>
    getCell p ((box - 1) / 3 * 3 + i) ((box - 1) % 3 * 3 + j) != num

/-- `checkValue(num, row, col, puzzle)`: combined row + column + box check. -/
def checkValue (num row col : Nat) (p : Board) : Bool :=
  checkRow row num p && checkCol col num p && checkBox (getBox row col) num p

/-- The swap of `shuffleValues`: `hold = l[i]; l[i] = l[j]; l[j] = hold`. -/
def swapAt (l : List Nat) (i j : Nat) : List Nat :=
  (l.set i (l.getD j 0)).set j (l.getD i 0)

/-- One iteration of the `shuffleValues` loop body: draw two spots, swap. -/
def swapSpots (l : List Nat) (g : Rng) : List Nat × Rng :=
  let (s1, g1) := randBelow l.length g
  let (s2, g2) := randBelow l.length g1
  (swapAt l s1 s2, g2)

/-- The `shuffleValues` loop, `k` iterations left. -/
def shuffleGo : Nat → List Nat → Rng → List Nat × Rng
  | 0, l, g => (l, g)
  | k + 1, l, g =>
    let (l1, g1) := swapSpots l g
    shuffleGo k l1 g1

/-- `shuffleValues(values)`: `values.length` random transpositions. -/
def shuffleValues (l : List Nat) (g : Rng) : List Nat × Rng :=
  shuffleGo l.length l g

/-- Result of a fill step: success flag, board, candidate array, stream. -/
abbrev FillState := Bool × Board × List Nat × Rng

/-- The `for (i = 0; i < values.length; i++)` loop of `fillCell`, at cell
`pos` (row `pos / 9`, col `pos % 9`).  `next` is the recursive call on the
next cell; `i` is the loop index; the loop re-reads the *current* array
`vals` at every iteration (deeper calls re-shuffle it); `k` counts the
remaining iterations (`values.length` never changes, so `k` runs out
exactly when `i` does). -/
def tryValues (next : Board → List Nat → Rng → FillState) (pos : Nat) :
    Nat → Nat → Board → List Nat → Rng → FillState
  | 0, _, p, vals, g => (false, p, vals, g)
  | k + 1, i, p, vals, g =>
    if i < vals.length then
      let num := vals.getD i 0
      if checkValue num (pos / 9) (pos % 9) p then
        match next (setCell p (pos / 9) (pos % 9) num) vals g with
        | (true, p2, vals2, g2) => (true, p2, vals2, g2)
        | (false, p2, vals2, g2) =>
          tryValues next pos k (i + 1) (setCell p2 (pos / 9) (pos % 9) 0) vals2 g2
      else tryValues next pos k (i + 1) p vals g
    else (false, p, vals, g)

/-- `fillCell(row, col, puzzle, values)`; `rem` cells remain from cell
`pos` on, `rem = 0` being the `row === ROWS` exit. -/
def fillCellGo : Nat → Nat → Board → List Nat → Rng → FillState
  | 0, _, p, vals, g => (true, p, vals, g)
  | rem + 1, pos, p, vals, g =>
    let (vals1, g1) := shuffleValues vals g
    tryValues (fillCellGo rem (pos + 1)) pos vals1.length 0 p vals1 g1

/-- `fillCell(0, 0, puzzle, values)`. -/
def fillCell (p : Board) (vals : List Nat) (g : Rng) : FillState :=
  fillCellGo 81 0 p vals g

/-- `createPuzzle()`: fill a blank board, return it together with the
remaining stream (the success flag is dropped, exactly as in the source). -/
def createPuzzle (g : Rng) : Board × Rng :=
  let res := fillCell createBlankPuzzle [1, 2, 3, 4, 5, 6, 7, 8, 9] g
  (res.2.1, res.2.2.2)

/-- The ascending `for (num = 1; num <= 9; num++)` loop of `solveCell` at
cell `pos`; `next` is the recursive call on the next cell. -/
def tryNums (next : Board → Bool × Board) (pos : Nat) :
    List Nat → Board → Bool × Board
  | [], p => (false, p)
  | num :: rest, p =>
    if checkValue num (pos / 9) (pos % 9) p then
      match next (setCell p (pos / 9) (pos % 9) num) with
      | (true, p2) => (true, p2)
      | (false, p2) => tryNums next pos rest (setCell p2 (pos / 9) (pos % 9) 0)
    else tryNums next pos rest p

/-- `solveCell(row, col, puzzle)`: skip filled cells, try 1–9 at blanks. -/
def solveCellGo : Nat → Nat → Board → Bool × Board
  | 0, _, p => (true, p)
  | rem + 1, pos, p =>
    if getCell p (pos / 9) (pos % 9) != 0 then solveCellGo rem (pos + 1) p
    else tryNums (solveCellGo rem (pos + 1)) pos [1, 2, 3, 4, 5, 6, 7, 8, 9] p

/-- `solve(puzzle)`: start at cell (0,0). -/
def solve (p : Board) : Bool × Board :=
  solveCellGo 81 0 p

/-- `isSolvable(puzzle)`: the source solves a `clonePuzzle` copy and
returns only the flag; under value semantics the copy is the board
itself and the mutated copy is dropped. -/
def isSolvable (p : Board) : Bool :=
  (solve p).1

/-- The `while (attempts > 0)` loop of `removeCellsWithGuarantee`:
pick a random cell; skip it if already empty, otherwise blank it and
keep the blank only if the board stays solvable.  `fuel` bounds the
number of loop iterations (the loop alone never terminates on a board
with no removable cell); `none` means the loop was still running. -/
def removeGo : Nat → Board → Nat → Rng → Option (Board × Rng)
  | _, p, 0, g => some (p, g)
  | 0, _, _ + 1, _ => none
  | fuel + 1, p, attempts + 1, g =>
    let (row, g1) := randBelow 9 g
    let (col, g2) := randBelow 9 g1
    if getCell p row col = 0 then removeGo fuel p (attempts + 1) g2
    else
      let backup := getCell p row col
      let p1 := setCell p row col 0
      if isSolvable p1 then removeGo fuel p1 attempts g2
      else removeGo fuel (setCell p1 row col backup) (attempts + 1) g2

/-- `removeCellsWithGuarantee(puzzle, blanks)`. -/
def removeCellsWithGuarantee (fuel : Nat) (p : Board) (blanks : Nat)
    (g : Rng) : Option (Board × Rng) :=
  removeGo fuel p blanks g

/-- `generatePuzzle(difficulty)`: build a full board, pick the blank
count from the difficulty label, remove cells, and return the single
(mutated) board — nothing else is returned to the caller. -/
def generatePuzzle (fuel : Nat) (g : Rng) (difficulty : String) :
    Option (Board × Rng) :=
  let (p, g1) := createPuzzle g
  let blanks : Nat :=
    if difficulty = "h" then 50
    else if difficulty = "m" then 40
    else 30
  removeCellsWithGuarantee fuel p blanks g1

/-! ### Out-of-range semantics of the validity checks

JavaScript reads out of an array's range as `undefined`, and
`undefined === num` is `false`; indexing into `undefined` itself
(a missing *row*) throws a `TypeError`.  The `Except`-valued variants
below model exactly that, so the dimension-error behaviour of
`checkValue` on out-of-range indices can be stated. -/

/-- `puzzle[r][c]` with JS semantics: a missing row throws (`TypeError`),
a missing column yields `undefined` (`none`). -/
def readCellE (p : Board) (r c : Nat) : Except String (Option Nat) :=
  if h : r < p.length then Except.ok ((p.get ⟨r, h⟩).get? c)
  else Except.error "TypeError"

/-- The `checkRow` loop over the given column indices, JS semantics. -/
def checkRowEGo (row num : Nat) (p : Board) : List Nat → Except String Bool
  | [] => Except.ok true
  | c :: rest =>
    match readCellE p row c with
    | Except.error e => Except.error e
    | Except.ok v => if v = some num then Except.ok false else checkRowEGo row num p rest

/-- `checkRow(row, num, puzzle)` with JS out-of-range semantics. -/
def checkRowE (row num : Nat) (p : Board) : Except String Bool :=
  checkRowEGo row num p idx9

/-- The `checkCol` loop over the given row indices, JS semantics. -/
def checkColEGo (col num : Nat) (p : Board) : List Nat → Except String Bool
  | [] => Except.ok true
  | r :: rest =>
    match readCellE p r col with
    | Except.error e => Except.error e
    | Except.ok v => if v = some num then Except.ok false else checkColEGo col num p rest

/-- `checkCol(col, num, puzzle)` with JS out-of-range semantics. -/
def checkColE (col num : Nat) (p : Board) : Except String Bool :=
  checkColEGo col num p idx9

/-- The `checkBox` double loop, JS semantics (`cells` are the `(i, j)`
offsets still to scan). -/
def checkBoxEGo (box num : Nat) (p : Board) : List (Nat × Nat) → Except String Bool
  | [] => Except.ok true
  | (i, j) :: rest =>
    match readCellE p ((box - 1) / 3 * 3 + i) ((box - 1) % 3 * 3 + j) with
    | Except.error e => Except.error e
    | Except.ok v => if v = some num then Except.ok false else checkBoxEGo box num p rest

/-- `checkBox(box, num, puzzle)` with JS out-of-range semantics. -/
def checkBoxE (box num : Nat) (p : Board) : Except String Bool :=
  checkBoxEGo box num p
    [(0, 0), (0, 1), (0, 2), (1, 0), (1, 1), (1, 2), (2, 0), (2, 1), (2, 2)]

/-- `checkValue(num, row, col, puzzle)` with JS out-of-range semantics:
the early `return false` of each failed sub-check, errors propagating. -/
def checkValueE (num row col : Nat) (p : Board) : Except String Bool :=
  match checkRowE row num p with
  | Except.error e => Except.error e
  | Except.ok false => Except.ok false
  | Except.ok true =>
    match checkColE col num p with
    | Except.error e => Except.error e
    | Except.ok false => Except.ok false
    | Except.ok true => checkBoxE (getBox row col) num p

/-! ### Reference definitions written from the spec's words

These are *not* translations of `engine.js`; they state what the spec
says the engine provides, for comparison with what it actually does. -/

/-- Modelled from the spec: the digit loop of `countSolutions`
(§4.3-B; absent from the source).  Digits are tried in ascending order;
`acc` is the running solution counter, returned as soon as it reaches
`limit`. -/
def countNums (next : Board → Nat → Nat) (pos limit : Nat) :
    List Nat → Board → Nat → Nat
  | [], _, acc => acc
  | num :: rest, p, acc =>
    if checkValue num (pos / 9) (pos % 9) p then
      let acc1 := next (setCell p (pos / 9) (pos % 9) num) acc
      if limit ≤ acc1 then acc1 else countNums next pos limit rest p acc1
    else countNums next pos limit rest p acc

/-- Modelled from the spec: the cell recursion of `countSolutions`
(§4.3-B; absent from the source): exhaustive backtracking over empty
cells in row-major order, counting complete assignments, pruned at
`limit`. -/
def countGo : Nat → Nat → Board → Nat → Nat → Nat
  | 0, _, _, _, acc => acc + 1
  | rem + 1, pos, p, limit, acc =>
    if getCell p (pos / 9) (pos % 9) != 0 then countGo rem (pos + 1) p limit acc
    else
      countNums (fun q acc1 => countGo rem (pos + 1) q limit acc1) pos limit
        [1, 2, 3, 4, 5, 6, 7, 8, 9] p acc

/-- Modelled from the spec: `countSolutions(board, limit)` (§4.3-B;
absent from the source). -/
def countSolutionsSpec (p : Board) (limit : Nat) : Nat :=
  countGo 81 0 p limit 0

/-- Modelled from the spec: the Fisher–Yates reference shuffle — "for `i`
from the last index down to 1, swap element `i` with the element at a
uniformly chosen index in `[0, i]`" — over the same random-stream model
(`randBelow (i + 1)` is the uniform draw from `[0, i]`). -/
def fisherYatesGo : Nat → List Nat → Rng → List Nat × Rng
  | 0, l, g => (l, g)
  | i + 1, l, g =>
    let (j, g1) := randBelow (i + 2) g
    fisherYatesGo i (swapAt l (i + 1) j) g1

/-- Modelled from the spec: the Fisher–Yates shuffle of a list. -/
def fisherYates (l : List Nat) (g : Rng) : List Nat × Rng :=
  fisherYatesGo (l.length - 1) l g

/-! ### Measurement definitions (not part of the engine) -/

/-- The number of blank cells of a board (cells are indexed row major
by `i = 9 * r + c`, `i < 81`). -/
def countZeros (p : Board) : Nat :=
  (List.range 81).countP fun i => getCell p (i / 9) (i % 9) == 0

/-- A board shape is well formed when it is a 9×9 grid. -/
def WF (p : Board) : Prop :=
  p.length = 9 ∧ ∀ r, r < 9 → (p.getD r []).length = 9

/-- Every row, column and 3×3 box of `q` contains each digit 1–9
exactly once (the complete-and-legal invariant). -/
def isValidComplete (q : Board) : Bool :=
  ([1, 2, 3, 4, 5, 6, 7, 8, 9].all fun d =>
    idx9.all fun r => (idx9.map fun c => getCell q r c).count d == 1) &&
  ([1, 2, 3, 4, 5, 6, 7, 8, 9].all fun d =>
    idx9.all fun c => (idx9.map fun r => getCell q r c).count d == 1) &&
  ([1, 2, 3, 4, 5, 6, 7, 8, 9].all fun d =>
    idx3.all fun br => idx3.all fun bc =>
      ((idx3.map fun i => idx3.map fun j =>
        getCell q (3 * br + i) (3 * bc + j)).flatten.count d == 1))

/-- `q` is a solution of the partial board `p`: complete, legal, and
agreeing with every filled cell of `p`. -/
def isCompletionOf (q p : Board) : Bool :=
  isValidComplete q &&
  (idx9.all fun r => idx9.all fun c =>
    (getCell p r c == 0) || (getCell q r c == getCell p r c))


/-! ### Concrete data for the evaluated runs -/

/-- A complete valid board (the board the greedy run below fills in). -/
def canonicalB : Board :=
  [[1, 2, 3, 4, 5, 6, 7, 8, 9],
   [4, 5, 6, 7, 8, 9, 1, 2, 3],
   [7, 8, 9, 1, 2, 3, 4, 5, 6],
   [2, 1, 4, 3, 6, 5, 8, 9, 7],
   [3, 6, 5, 8, 9, 7, 2, 1, 4],
   [8, 9, 7, 2, 1, 4, 3, 6, 5],
   [5, 3, 1, 6, 4, 2, 9, 7, 8],
   [6, 4, 2, 9, 7, 8, 5, 3, 1],
   [9, 7, 8, 5, 3, 1, 6, 4, 2]]

/-- Random stream for a fully evaluated `generatePuzzle` run: 81 shuffle
blocks, each moving the next digit of `canonicalB` to index 0 of the
candidate array (so the backtracking fill is greedy), followed by the 30
cell picks `(8,0) .. (8,8), (7,0) .. (7,8), (6,0) .. (6,8), (5,0),
(5,1), (5,2)` consumed by `removeCellsWithGuarantee`. -/
def genStreamE : Rng :=
  [
   0, 0, 0, 0, 0, 0, 0, 0, 0, 0, 0, 0, 0, 0, 0, 0, 0, 0, 0, 1, 0, 0, 0, 0, 0, 0, 0, 0, 0, 0,
   0, 0, 0, 0, 0, 0, 0, 2, 0, 0, 0, 0, 0, 0, 0, 0, 0, 0, 0, 0, 0, 0, 0, 0, 0, 3, 0, 0, 0, 0,
   0, 0, 0, 0, 0, 0, 0, 0, 0, 0, 0, 0, 0, 4, 0, 0, 0, 0, 0, 0, 0, 0, 0, 0, 0, 0, 0, 0, 0, 0,
   0, 5, 0, 0, 0, 0, 0, 0, 0, 0, 0, 0, 0, 0, 0, 0, 0, 0, 0, 6, 0, 0, 0, 0, 0, 0, 0, 0, 0, 0,
   0, 0, 0, 0, 0, 0, 0, 7, 0, 0, 0, 0, 0, 0, 0, 0, 0, 0, 0, 0, 0, 0, 0, 0, 0, 8, 0, 0, 0, 0,
   0, 0, 0, 0, 0, 0, 0, 0, 0, 0, 0, 0, 0, 4, 0, 0, 0, 0, 0, 0, 0, 0, 0, 0, 0, 0, 0, 0, 0, 0,
   0, 5, 0, 0, 0, 0, 0, 0, 0, 0, 0, 0, 0, 0, 0, 0, 0, 0, 0, 6, 0, 0, 0, 0, 0, 0, 0, 0, 0, 0,
   0, 0, 0, 0, 0, 0, 0, 7, 0, 0, 0, 0, 0, 0, 0, 0, 0, 0, 0, 0, 0, 0, 0, 0, 0, 8, 0, 0, 0, 0,
   0, 0, 0, 0, 0, 0, 0, 0, 0, 0, 0, 0, 0, 4, 0, 0, 0, 0, 0, 0, 0, 0, 0, 0, 0, 0, 0, 0, 0, 0,
   0, 1, 0, 0, 0, 0, 0, 0, 0, 0, 0, 0, 0, 0, 0, 0, 0, 0, 0, 2, 0, 0, 0, 0, 0, 0, 0, 0, 0, 0,
   0, 0, 0, 0, 0, 0, 0, 3, 0, 0, 0, 0, 0, 0, 0, 0, 0, 0, 0, 0, 0, 0, 0, 0, 0, 8, 0, 0, 0, 0,
   0, 0, 0, 0, 0, 0, 0, 0, 0, 0, 0, 0, 0, 4, 0, 0, 0, 0, 0, 0, 0, 0, 0, 0, 0, 0, 0, 0, 0, 0,
   0, 1, 0, 0, 0, 0, 0, 0, 0, 0, 0, 0, 0, 0, 0, 0, 0, 0, 0, 2, 0, 0, 0, 0, 0, 0, 0, 0, 0, 0,
   0, 0, 0, 0, 0, 0, 0, 3, 0, 0, 0, 0, 0, 0, 0, 0, 0, 0, 0, 0, 0, 0, 0, 0, 0, 8, 0, 0, 0, 0,
   0, 0, 0, 0, 0, 0, 0, 0, 0, 0, 0, 0, 0, 5, 0, 0, 0, 0, 0, 0, 0, 0, 0, 0, 0, 0, 0, 0, 0, 0,
   0, 6, 0, 0, 0, 0, 0, 0, 0, 0, 0, 0, 0, 0, 0, 0, 0, 0, 0, 7, 0, 0, 0, 0, 0, 0, 0, 0, 0, 0,
   0, 0, 0, 0, 0, 0, 0, 8, 0, 0, 0, 0, 0, 0, 0, 0, 0, 0, 0, 0, 0, 0, 0, 0, 0, 3, 0, 0, 0, 0,
   0, 0, 0, 0, 0, 0, 0, 0, 0, 0, 0, 0, 0, 6, 0, 0, 0, 0, 0, 0, 0, 0, 0, 0, 0, 0, 0, 0, 0, 0,
   0, 5, 0, 0, 0, 0, 0, 0, 0, 0, 0, 0, 0, 0, 0, 0, 0, 0, 0, 8, 0, 0, 0, 0, 0, 0, 0, 0, 0, 0,
   0, 0, 0, 0, 0, 0, 0, 7, 0, 0, 0, 0, 0, 0, 0, 0, 0, 0, 0, 0, 0, 0, 0, 0, 0, 1, 0, 0, 0, 0,
   0, 0, 0, 0, 0, 0, 0, 0, 0, 0, 0, 0, 0, 2, 0, 0, 0, 0, 0, 0, 0, 0, 0, 0, 0, 0, 0, 0, 0, 0,
   0, 4, 0, 0, 0, 0, 0, 0, 0, 0, 0, 0, 0, 0, 0, 0, 0, 0, 0, 8, 0, 0, 0, 0, 0, 0, 0, 0, 0, 0,
   0, 0, 0, 0, 0, 0, 0, 7, 0, 0, 0, 0, 0, 0, 0, 0, 0, 0, 0, 0, 0, 0, 0, 0, 0, 1, 0, 0, 0, 0,
   0, 0, 0, 0, 0, 0, 0, 0, 0, 0, 0, 0, 0, 2, 0, 0, 0, 0, 0, 0, 0, 0, 0, 0, 0, 0, 0, 0, 0, 0,
   0, 4, 0, 0, 0, 0, 0, 0, 0, 0, 0, 0, 0, 0, 0, 0, 0, 0, 0, 8, 0, 0, 0, 0, 0, 0, 0, 0, 0, 0,
   0, 0, 0, 0, 0, 0, 0, 3, 0, 0, 0, 0, 0, 0, 0, 0, 0, 0, 0, 0, 0, 0, 0, 0, 0, 6, 0, 0, 0, 0,
   0, 0, 0, 0, 0, 0, 0, 0, 0, 0, 0, 0, 0, 5, 0, 0, 0, 0, 0, 0, 0, 0, 0, 0, 0, 0, 0, 0, 0, 0,
   0, 4, 0, 0, 0, 0, 0, 0, 0, 0, 0, 0, 0, 0, 0, 0, 0, 0, 0, 8, 0, 0, 0, 0, 0, 0, 0, 0, 0, 0,
   0, 0, 0, 0, 0, 0, 0, 3, 0, 0, 0, 0, 0, 0, 0, 0, 0, 0, 0, 0, 0, 0, 0, 0, 0, 6, 0, 0, 0, 0,
   0, 0, 0, 0, 0, 0, 0, 0, 0, 0, 0, 0, 0, 5, 0, 0, 0, 0, 0, 0, 0, 0, 0, 0, 0, 0, 0, 0, 0, 0,
   0, 4, 0, 0, 0, 0, 0, 0, 0, 0, 0, 0, 0, 0, 0, 0, 0, 0, 0, 7, 0, 0, 0, 0, 0, 0, 0, 0, 0, 0,
   0, 0, 0, 0, 0, 0, 0, 1, 0, 0, 0, 0, 0, 0, 0, 0, 0, 0, 0, 0, 0, 0, 0, 0, 0, 2, 0, 0, 0, 0,
   0, 0, 0, 0, 0, 0, 0, 0, 0, 0, 0, 0, 0, 0, 0, 0, 0, 0, 0, 0, 0, 0, 0, 0, 0, 0, 0, 0, 0, 0,
   0, 1, 0, 0, 0, 0, 0, 0, 0, 0, 0, 0, 0, 0, 0, 0, 0, 0, 0, 4, 0, 0, 0, 0, 0, 0, 0, 0, 0, 0,
   0, 0, 0, 0, 0, 0, 0, 2, 0, 0, 0, 0, 0, 0, 0, 0, 0, 0, 0, 0, 0, 0, 0, 0, 0, 7, 0, 0, 0, 0,
   0, 0, 0, 0, 0, 0, 0, 0, 0, 0, 0, 0, 0, 5, 0, 0, 0, 0, 0, 0, 0, 0, 0, 0, 0, 0, 0, 0, 0, 0,
   0, 3, 0, 0, 0, 0, 0, 0, 0, 0, 0, 0, 0, 0, 0, 0, 0, 0, 0, 6, 0, 0, 0, 0, 0, 0, 0, 0, 0, 0,
   0, 0, 0, 0, 0, 0, 0, 8, 0, 0, 0, 0, 0, 0, 0, 0, 0, 0, 0, 0, 0, 0, 0, 0, 0, 7, 0, 0, 0, 0,
   0, 0, 0, 0, 0, 0, 0, 0, 0, 0, 0, 0, 0, 5, 0, 0, 0, 0, 0, 0, 0, 0, 0, 0, 0, 0, 0, 0, 0, 0,
   0, 3, 0, 0, 0, 0, 0, 0, 0, 0, 0, 0, 0, 0, 0, 0, 0, 0, 0, 6, 0, 0, 0, 0, 0, 0, 0, 0, 0, 0,
   0, 0, 0, 0, 0, 0, 0, 8, 0, 0, 0, 0, 0, 0, 0, 0, 0, 0, 0, 0, 0, 0, 0, 0, 0, 7, 0, 0, 0, 0,
   0, 0, 0, 0, 0, 0, 0, 0, 0, 0, 0, 0, 0, 1, 0, 0, 0, 0, 0, 0, 0, 0, 0, 0, 0, 0, 0, 0, 0, 0,
   0, 4, 0, 0, 0, 0, 0, 0, 0, 0, 0, 0, 0, 0, 0, 0, 0, 0, 0, 2, 0, 0, 0, 0, 0, 0, 0, 0, 0, 0,
   0, 0, 0, 0, 0, 0, 0, 8, 0, 0, 0, 0, 0, 0, 0, 0, 0, 0, 0, 0, 0, 0, 0, 0, 0, 7, 0, 0, 0, 0,
   0, 0, 0, 0, 0, 0, 0, 0, 0, 0, 0, 0, 0, 1, 0, 0, 0, 0, 0, 0, 0, 0, 0, 0, 0, 0, 0, 0, 0, 0,
   0, 4, 0, 0, 0, 0, 0, 0, 0, 0, 0, 0, 0, 0, 0, 0, 0, 0, 0, 2, 0, 0, 0, 0, 0, 0, 0, 0, 0, 0,
   0, 0, 0, 0, 0, 0, 0, 8, 0, 0, 0, 0, 0, 0, 0, 0, 0, 0, 0, 0, 0, 0, 0, 0, 0, 5, 0, 0, 0, 0,
   0, 0, 0, 0, 0, 0, 0, 0, 0, 0, 0, 0, 0, 3, 0, 0, 0, 0, 0, 0, 0, 0, 0, 0, 0, 0, 0, 0, 0, 0,
   0, 6, 0, 0, 0, 0, 0, 0, 0, 0, 0, 0, 0, 0, 0, 0, 0, 0, 8, 0, 8, 1, 8, 2, 8, 3, 8, 4, 8, 5,
   8, 6, 8, 7, 8, 8, 7, 0, 7, 1, 7, 2, 7, 3, 7, 4, 7, 5, 7, 6, 7, 7, 7, 8, 6, 0, 6, 1, 6, 2,
   6, 3, 6, 4, 6, 5, 6, 6, 6, 7, 6, 8, 5, 0, 5, 1, 5, 2]

/-- The board that `generatePuzzle` run returns: `canonicalB` with the 30
picked cells blanked. -/
def puzzleE : Board :=
  [[1, 2, 3, 4, 5, 6, 7, 8, 9],
   [4, 5, 6, 7, 8, 9, 1, 2, 3],
   [7, 8, 9, 1, 2, 3, 4, 5, 6],
   [2, 1, 4, 3, 6, 5, 8, 9, 7],
   [3, 6, 5, 8, 9, 7, 2, 1, 4],
   [0, 0, 0, 2, 1, 4, 3, 6, 5],
   [0, 0, 0, 0, 0, 0, 0, 0, 0],
   [0, 0, 0, 0, 0, 0, 0, 0, 0],
   [0, 0, 0, 0, 0, 0, 0, 0, 0]]

/-- Stream for a 4-cell reduction run: picks `(0,0), (0,1), (3,0), (3,1)`,
four cells of `canonicalB` forming two digit pairs 1/2 that can be
swapped between rows 0 and 3 inside the left box stack. -/
def rectStream : Rng := [0, 0, 0, 1, 3, 0, 3, 1]

/-- `canonicalB` with rows 0–3 kept, row 4 filled up to column 2, and
everything after cell 39 = (4,3) blank: the board on which the fill is
restarted in the evaluated failure run. -/
def start39 : Board :=
  [[1, 2, 3, 4, 5, 6, 7, 8, 9],
   [4, 5, 6, 7, 8, 9, 1, 2, 3],
   [7, 8, 9, 1, 2, 3, 4, 5, 6],
   [2, 1, 4, 3, 6, 5, 8, 9, 7],
   [3, 6, 5, 0, 0, 0, 0, 0, 0],
   [0, 0, 0, 0, 0, 0, 0, 0, 0],
   [0, 0, 0, 0, 0, 0, 0, 0, 0],
   [0, 0, 0, 0, 0, 0, 0, 0, 0],
   [0, 0, 0, 0, 0, 0, 0, 0, 0]]

/-- Stream for the failure run of `fillCell` at cell 39 of `start39`:
the entry shuffle arranges the candidate array as
`[1, 3, 4, 5, 6, 7, 2, 8, 9]` (six digits that conflict at (4,3), then
2, then 8 and 9); reading 2 recurses into an unsolvable branch whose
first shuffle re-arranges the *same* array as
`[8, 9, 2, 4, 5, 6, 7, 1, 3]`; when that branch fails, the interrupted
loop at (4,3) resumes at indices 7 and 8 of the re-shuffled array and
finds conflicting digits 1 and 3 there, so digits 8 and 9 — one of
which completes the board — are never tried at (4,3). -/
def demoStream : Rng :=
  [
   0, 0, 1, 2, 2, 3, 3, 4, 4, 5, 5, 6, 0, 0, 0, 0, 0, 0, 0, 7, 1, 8, 2, 6, 3, 6, 4, 6, 5, 6,
   0, 0, 0, 0, 0, 0]

/-- A board on which `fillCell` overwrites a given digit: row 0 is
`1 1 2 3 4 5 6 7 8`, all other cells are 1. -/
def overwriteB : Board :=
  [[1, 1, 2, 3, 4, 5, 6, 7, 8],
   [1, 1, 1, 1, 1, 1, 1, 1, 1],
   [1, 1, 1, 1, 1, 1, 1, 1, 1],
   [1, 1, 1, 1, 1, 1, 1, 1, 1],
   [1, 1, 1, 1, 1, 1, 1, 1, 1],
   [1, 1, 1, 1, 1, 1, 1, 1, 1],
   [1, 1, 1, 1, 1, 1, 1, 1, 1],
   [1, 1, 1, 1, 1, 1, 1, 1, 1],
   [1, 1, 1, 1, 1, 1, 1, 1, 1]]

/-- `start39` with the digit 2 placed at cell 39 = (4,3): a board whose
backtracking search fails (it has no completion). -/
def unsolv40 : Board :=
  [[1,2,3,4,5,6,7,8,9],
   [4,5,6,7,8,9,1,2,3],
   [7,8,9,1,2,3,4,5,6],
   [2,1,4,3,6,5,8,9,7],
   [3,6,5,2,0,0,0,0,0],
   [0,0,0,0,0,0,0,0,0],
   [0,0,0,0,0,0,0,0,0],
   [0,0,0,0,0,0,0,0,0],
   [0,0,0,0,0,0,0,0,0]]

/-- `canonicalB` with cell (4,4) blanked (the single-removal run). -/
def canonicalB44 : Board :=
  [[1, 2, 3, 4, 5, 6, 7, 8, 9],
   [4, 5, 6, 7, 8, 9, 1, 2, 3],
   [7, 8, 9, 1, 2, 3, 4, 5, 6],
   [2, 1, 4, 3, 6, 5, 8, 9, 7],
   [3, 6, 5, 8, 0, 7, 2, 1, 4],
   [8, 9, 7, 2, 1, 4, 3, 6, 5],
   [5, 3, 1, 6, 4, 2, 9, 7, 8],
   [6, 4, 2, 9, 7, 8, 5, 3, 1],
   [9, 7, 8, 5, 3, 1, 6, 4, 2]]

/-! ### Generic list lemmas -/

/-- Writing back the value a position already holds changes nothing. -/
theorem set_getD_self {α : Type} (l : List α) (i : Nat) (d : α) :
    l.set i (l.getD i d) = l := by
  induction l generalizing i with
  | nil => simp
  | cons a t ih =>
    cases i with
    | zero => simp
    | succ n =>
      simp only [List.getD_cons_succ, List.set_cons_succ, List.cons.injEq]
      exact ⟨trivial, ih n⟩

theorem getD_set_self {α : Type} (l : List α) (i : Nat) (v d : α)
    (h : i < l.length) : (l.set i v).getD i d = v := by
  rw [List.getD_eq_getElem?_getD, List.getElem?_set_self h, Option.getD_some]

theorem getD_set_ne {α : Type} (l : List α) {i j : Nat} (v d : α)
    (h : i ≠ j) : (l.set i v).getD j d = l.getD j d := by
  rw [List.getD_eq_getElem?_getD, List.getElem?_set_ne h,
    ← List.getD_eq_getElem?_getD]

theorem getD_mem {α : Type} (l : List α) (i : Nat) (d : α)
    (h : i < l.length) : l.getD i d ∈ l := by
  rw [List.getD_eq_getElem?_getD, List.getElem?_eq_getElem h]
  exact List.getElem_mem h

/-- Counting after one in-range overwrite: the old entry leaves the
count, the new entry enters it. -/
theorem count_set (l : List Nat) (i v a : Nat) (h : i < l.length) :
    (l.set i v).count a + (if l.getD i 0 = a then 1 else 0)
      = l.count a + (if v = a then 1 else 0) := by
  induction l generalizing i with
  | nil => simp at h
  | cons b t ih =>
    cases i with
    | zero =>
      simp only [List.set_cons_zero, List.count_cons, List.getD_cons_zero,
        beq_iff_eq]
      split_ifs <;> omega
    | succ n =>
      simp only [List.set_cons_succ, List.count_cons, List.getD_cons_succ,
        beq_iff_eq]
      have := ih n (by simpa using h)
      split_ifs at this ⊢ <;> omega

/-- Two `countP`s that agree except at one value `i0`. -/
theorem countP_split (l : List Nat) (f g : Nat → Bool) (i0 : Nat)
    (hfg : ∀ x ∈ l, x ≠ i0 → f x = g x) (hf : f i0 = true)
    (hg : g i0 = false) :
    l.countP f = l.countP g + l.count i0 := by
  induction l with
  | nil => simp
  | cons a t ih =>
    have ht := ih fun x hx => hfg x (List.mem_cons_of_mem a hx)
    simp only [List.countP_cons, List.count_cons, beq_iff_eq]
    by_cases ha : a = i0
    · subst ha; rw [hf, hg]; simp; omega
    · rw [hfg a (List.mem_cons_self a t) ha]
      split_ifs <;> omega

/-! ### Board access lemmas -/

theorem getCell_setCell_ne (p : Board) {r c r' c' : Nat} (v : Nat)
    (h : r ≠ r' ∨ c ≠ c') :
    getCell (setCell p r c v) r' c' = getCell p r' c' := by
  unfold getCell setCell
  rcases h with h | h
  · rw [getD_set_ne _ _ _ h]
  · by_cases hr : r = r'
    · subst hr
      by_cases hlen : r < p.length
      · rw [getD_set_self _ _ _ _ hlen, getD_set_ne _ _ _ h]
      · rw [List.set_eq_of_length_le (show p.length ≤ r by omega)]
    · rw [getD_set_ne _ _ _ hr]

theorem getCell_setCell_self (p : Board) {r c : Nat} (v : Nat)
    (hr : r < p.length) (hc : c < (p.getD r []).length) :
    getCell (setCell p r c v) r c = v := by
  unfold getCell setCell
  rw [getD_set_self _ _ _ _ hr, getD_set_self _ _ _ _ hc]

theorem setCell_setCell (p : Board) (r c v w : Nat) :
    setCell (setCell p r c v) r c w = setCell p r c w := by
  unfold setCell
  by_cases hlen : r < p.length
  · rw [getD_set_self _ _ _ _ hlen, List.set_set, List.set_set]
  · have h1 : p.set r ((p.getD r []).set c v) = p :=
      List.set_eq_of_length_le (show p.length ≤ r by omega)
    rw [h1]

theorem setCell_getCell_self (p : Board) (r c : Nat) :
    setCell p r c (getCell p r c) = p := by
  unfold setCell getCell
  rw [set_getD_self, set_getD_self]

/-- A nonzero reading is a real reading: both indices are in range. -/
theorem bounds_of_getCell_ne_zero {p : Board} {r c : Nat}
    (h : getCell p r c ≠ 0) :
    r < p.length ∧ c < (p.getD r []).length := by
  unfold getCell at h
  constructor
  · by_contra hr
    apply h
    rw [List.getD_eq_default p [] (by omega)]
    rfl
  · by_contra hc
    exact h (List.getD_eq_default _ _ (by omega))

theorem WF_setCell {p : Board} (h : WF p) (r c v : Nat) :
    WF (setCell p r c v) := by
  obtain ⟨hlen, hrow⟩ := h
  refine ⟨by simp [setCell, hlen], fun r' hr' => ?_⟩
  by_cases hrr : r = r'
  · subst hrr
    by_cases hlt : r < p.length
    · simp only [setCell]
      rw [getD_set_self _ _ _ _ hlt, List.length_set]
      exact hrow r hr'
    · simp only [setCell]
      rw [List.set_eq_of_length_le (show p.length ≤ r by omega)]
      exact hrow r hr'
  · simp only [setCell]
    rw [getD_set_ne _ _ _ hrr]
    exact hrow r' hr'

theorem getCell_blank (r c : Nat) : getCell createBlankPuzzle r c = 0 := by
  unfold getCell createBlankPuzzle
  rw [List.getD_eq_getElem?_getD (List.replicate 9 (List.replicate 9 0)) r [],
    List.getElem?_replicate]
  by_cases hr : r < 9
  · rw [if_pos hr, Option.getD_some,
      List.getD_eq_getElem?_getD (List.replicate 9 0) c 0,
      List.getElem?_replicate]
    by_cases hc : c < 9
    · rw [if_pos hc, Option.getD_some]
    · rw [if_neg hc]; rfl
  · rw [if_neg hr]; rfl

theorem WF_blank : WF createBlankPuzzle := by
  refine ⟨rfl, fun r hr => ?_⟩
  unfold createBlankPuzzle
  rw [List.getD_eq_getElem?_getD, List.getElem?_replicate, if_pos hr,
    Option.getD_some]
  rfl

/-! ### Blank-count lemmas -/

/-- Blanking one filled in-range cell adds exactly one blank. -/
theorem countZeros_setCell_zero {p : Board} {r c : Nat} (hr : r < 9)
    (hc : c < 9) (h : getCell p r c ≠ 0) :
    countZeros (setCell p r c 0) = countZeros p + 1 := by
  unfold countZeros
  have hbounds := bounds_of_getCell_ne_zero h
  have key : (List.range 81).countP
        (fun i => getCell (setCell p r c 0) (i / 9) (i % 9) == 0)
      = (List.range 81).countP (fun i => getCell p (i / 9) (i % 9) == 0)
        + (List.range 81).count (9 * r + c) := by
    apply countP_split
    · intro x _ hx
      have hne : r ≠ x / 9 ∨ c ≠ x % 9 := by omega
      rw [getCell_setCell_ne p 0 hne]
    · have h1 : (9 * r + c) / 9 = r := by omega
      have h2 : (9 * r + c) % 9 = c := by omega
      rw [h1, h2, getCell_setCell_self p 0 hbounds.1 hbounds.2]
      rfl
    · have h1 : (9 * r + c) / 9 = r := by omega
      have h2 : (9 * r + c) % 9 = c := by omega
      rw [h1, h2]
      simpa using h
  rw [key, List.count_eq_one_of_mem (List.nodup_range 81)
    (List.mem_range.mpr (by omega))]

/-- A board with no blank cell has blank count 0. -/
theorem countZeros_eq_zero {p : Board}
    (h : ∀ i, i < 81 → getCell p (i / 9) (i % 9) ≠ 0) : countZeros p = 0 := by
  unfold countZeros
  rw [List.countP_eq_zero]
  intro i hi
  simpa using h i (List.mem_range.mp hi)

/-! ### The shuffle yields a permutation -/

theorem randBelow_lt {n : Nat} (g : Rng) (h : 0 < n) :
    (randBelow n g).1 < n := by
  cases g with
  | nil => simpa [randBelow] using h
  | cons x rest => simpa [randBelow] using Nat.mod_lt x h

theorem swapAt_perm (l : List Nat) {i j : Nat} (hi : i < l.length)
    (hj : j < l.length) : (swapAt l i j).Perm l := by
  rw [List.perm_iff_count]
  intro a
  by_cases hij : i = j
  · subst hij
    unfold swapAt
    rw [List.set_set, set_getD_self]
  · have h1 := count_set l i (l.getD j 0) a hi
    have h2 := count_set (l.set i (l.getD j 0)) j (l.getD i 0) a
      (by rw [List.length_set]; exact hj)
    rw [getD_set_ne _ _ _ hij] at h2
    unfold swapAt
    split_ifs at h1 h2 <;> omega

theorem swapSpots_perm (l : List Nat) (g : Rng) (h : l ≠ []) :
    (swapSpots l g).1.Perm l := by
  have hlen : 0 < l.length := List.length_pos.mpr h
  unfold swapSpots
  exact swapAt_perm l (randBelow_lt g hlen) (randBelow_lt _ hlen)

theorem shuffleGo_perm : ∀ (k : Nat) (l : List Nat) (g : Rng), l ≠ [] →
    (shuffleGo k l g).1.Perm l
  | 0, l, g, _ => List.Perm.refl l
  | k + 1, l, g, h => by
    simp only [shuffleGo]
    have hs := swapSpots_perm l g h
    have hne : (swapSpots l g).1 ≠ [] := by
      intro hnil
      rw [hnil] at hs
      exact h (List.Perm.nil_eq hs).symm
    exact ((shuffleGo_perm k (swapSpots l g).1 (swapSpots l g).2 hne).trans hs)

/-- `shuffleValues` permutes its input, whatever the random stream. -/
theorem shuffleValues_perm (l : List Nat) (g : Rng) :
    (shuffleValues l g).1.Perm l := by
  by_cases h : l = []
  · subst h
    exact List.Perm.refl _
  · exact shuffleGo_perm l.length l g h

/-! ### What a fill run preserves and guarantees

`tryValues` is verified against an arbitrary contract for the recursive
call `next` on the next cell, and `fillCellGo` then closes the loop by
instantiating that contract with its own induction hypothesis.  The
contract: the board stays a 9×9 grid, the candidate array keeps holding
digits 1–9 only, cells before the current one are never touched, and on
success every cell from the current one on holds a digit 1–9. -/

theorem tryValues_spec (next : Board → List Nat → Rng → FillState)
    (pos : Nat) (hpos : pos < 81)
    (Hnext : ∀ (q : Board) (vals : List Nat) (g : Rng), WF q →
      (∀ v ∈ vals, 1 ≤ v ∧ v ≤ 9) →
      WF (next q vals g).2.1 ∧
      (∀ v ∈ (next q vals g).2.2.1, 1 ≤ v ∧ v ≤ 9) ∧
      (∀ j, j < pos + 1 →
        getCell (next q vals g).2.1 (j / 9) (j % 9)
          = getCell q (j / 9) (j % 9)) ∧
      ((next q vals g).1 = true → ∀ j, pos + 1 ≤ j → j < 81 →
        1 ≤ getCell (next q vals g).2.1 (j / 9) (j % 9) ∧
        getCell (next q vals g).2.1 (j / 9) (j % 9) ≤ 9)) :
    ∀ (k i : Nat) (p : Board) (vals : List Nat) (g : Rng), WF p →
      (∀ v ∈ vals, 1 ≤ v ∧ v ≤ 9) →
      WF (tryValues next pos k i p vals g).2.1 ∧
      (∀ v ∈ (tryValues next pos k i p vals g).2.2.1, 1 ≤ v ∧ v ≤ 9) ∧
      (∀ j, j < pos →
        getCell (tryValues next pos k i p vals g).2.1 (j / 9) (j % 9)
          = getCell p (j / 9) (j % 9)) ∧
      ((tryValues next pos k i p vals g).1 = true → ∀ j, pos ≤ j → j < 81 →
        1 ≤ getCell (tryValues next pos k i p vals g).2.1 (j / 9) (j % 9) ∧
        getCell (tryValues next pos k i p vals g).2.1 (j / 9) (j % 9) ≤ 9) := by
  intro k
  induction k with
  | zero =>
    intro i p vals g hWF hvals
    exact ⟨hWF, hvals, fun j _ => rfl, fun h => Bool.noConfusion h⟩
  | succ k ih =>
    intro i p vals g hWF hvals
    by_cases hi : i < vals.length
    · by_cases hcv : checkValue (vals.getD i 0) (pos / 9) (pos % 9) p = true
      · rcases hnx : next (setCell p (pos / 9) (pos % 9) (vals.getD i 0)) vals g
          with ⟨ok2, p2, vals2, g2⟩
        have hnum := hvals _ (getD_mem vals i 0 hi)
        have hWFset := WF_setCell hWF (pos / 9) (pos % 9) (vals.getD i 0)
        have Hq := Hnext (setCell p (pos / 9) (pos % 9) (vals.getD i 0)) vals g
          hWFset hvals
        rw [hnx] at Hq
        dsimp only at Hq
        obtain ⟨hWF2, hvals2, hframe2, hfill2⟩ := Hq
        have cellne : ∀ j, j ≠ pos → pos / 9 ≠ j / 9 ∨ pos % 9 ≠ j % 9 := by
          intro j hj
          omega
        cases ok2 with
        | true =>
          have hres : tryValues next pos (k + 1) i p vals g
              = (true, p2, vals2, g2) := by
            simp only [tryValues, if_pos hi, if_pos hcv, hnx]
          rw [hres]
          refine ⟨hWF2, hvals2, ?_, ?_⟩
          · intro j hj
            dsimp only
            rw [hframe2 j (by omega),
              getCell_setCell_ne p _ (cellne j (by omega))]
          · intro _ j hj1 hj2
            dsimp only
            by_cases hjpos : j = pos
            · subst hjpos
              have hcell : getCell p2 (j / 9) (j % 9) = vals.getD i 0 := by
                rw [hframe2 j (by omega)]
                exact getCell_setCell_self p _
                  (by rw [hWF.1]; omega)
                  (by rw [hWF.2 (j / 9) (by omega)]; omega)
              rw [hcell]
              exact hnum
            · exact hfill2 rfl j (by omega) hj2
        | false =>
          have hres : tryValues next pos (k + 1) i p vals g
              = tryValues next pos k (i + 1)
                  (setCell p2 (pos / 9) (pos % 9) 0) vals2 g2 := by
            simp only [tryValues, if_pos hi, if_pos hcv, hnx]
          rw [hres]
          have hWFdown := WF_setCell hWF2 (pos / 9) (pos % 9) 0
          obtain ⟨hWF3, hvals3, hframe3, hfill3⟩ :=
            ih (i + 1) (setCell p2 (pos / 9) (pos % 9) 0) vals2 g2 hWFdown hvals2
          refine ⟨hWF3, hvals3, ?_, hfill3⟩
          intro j hj
          rw [hframe3 j hj, getCell_setCell_ne p2 _ (cellne j (by omega)),
            hframe2 j (by omega),
            getCell_setCell_ne p _ (cellne j (by omega))]
      · have hres : tryValues next pos (k + 1) i p vals g
            = tryValues next pos k (i + 1) p vals g := by
          simp only [tryValues, if_pos hi, if_neg hcv]
        rw [hres]
        exact ih (i + 1) p vals g hWF hvals
    · have hres : tryValues next pos (k + 1) i p vals g = (false, p, vals, g) := by
        simp only [tryValues, if_neg hi]
      rw [hres]
      exact ⟨hWF, hvals, fun j _ => rfl, fun h => Bool.noConfusion h⟩

theorem fillCellGo_spec :
    ∀ (rem pos : Nat) (p : Board) (vals : List Nat) (g : Rng),
      pos + rem = 81 → WF p → (∀ v ∈ vals, 1 ≤ v ∧ v ≤ 9) →
      WF (fillCellGo rem pos p vals g).2.1 ∧
      (∀ v ∈ (fillCellGo rem pos p vals g).2.2.1, 1 ≤ v ∧ v ≤ 9) ∧
      (∀ j, j < pos →
        getCell (fillCellGo rem pos p vals g).2.1 (j / 9) (j % 9)
          = getCell p (j / 9) (j % 9)) ∧
      ((fillCellGo rem pos p vals g).1 = true → ∀ j, pos ≤ j → j < 81 →
        1 ≤ getCell (fillCellGo rem pos p vals g).2.1 (j / 9) (j % 9) ∧
        getCell (fillCellGo rem pos p vals g).2.1 (j / 9) (j % 9) ≤ 9) := by
  intro rem
  induction rem with
  | zero =>
    intro pos p vals g hsum hWF hvals
    exact ⟨hWF, hvals, fun j _ => rfl, fun _ j hj1 hj2 => absurd hj2 (by omega)⟩
  | succ rem ih =>
    intro pos p vals g hsum hWF hvals
    rcases hsh : shuffleValues vals g with ⟨vals1, g1⟩
    have hres : fillCellGo (rem + 1) pos p vals g
        = tryValues (fillCellGo rem (pos + 1)) pos vals1.length 0 p vals1 g1 := by
      simp only [fillCellGo, hsh]
    rw [hres]
    have hperm : vals1.Perm vals := by
      have := shuffleValues_perm vals g
      rwa [hsh] at this
    have hvals1 : ∀ v ∈ vals1, 1 ≤ v ∧ v ≤ 9 := fun v hv =>
      hvals v (hperm.mem_iff.mp hv)
    exact tryValues_spec (fillCellGo rem (pos + 1)) pos (by omega)
      (fun q vals' g' hq hv' => ih (pos + 1) q vals' g' (by omega) hq hv')
      vals1.length 0 p vals1 g1 hWF hvals1

/-! ### Failure restores the board

For `solveCell` this holds on every board (only blank cells are ever
written, and each is reset to 0); for `fillCell` it holds when the cells
from the current one on are blank (as they are when filling a blank
board) — `fillCell` *overwrites* filled cells and resets them to 0, so
on other boards a failing run does not restore the input
(see the counterexample on `overwriteB`). -/

theorem tryValues_restore (next : Board → List Nat → Rng → FillState)
    (pos : Nat)
    (Hnext : ∀ (q : Board) (vals : List Nat) (g : Rng),
      (∀ j, pos + 1 ≤ j → j < 81 → getCell q (j / 9) (j % 9) = 0) →
      (next q vals g).1 = false → (next q vals g).2.1 = q) :
    ∀ (k i : Nat) (p : Board) (vals : List Nat) (g : Rng),
      (∀ j, pos ≤ j → j < 81 → getCell p (j / 9) (j % 9) = 0) →
      pos < 81 →
      (tryValues next pos k i p vals g).1 = false →
      (tryValues next pos k i p vals g).2.1 = p := by
  intro k
  induction k with
  | zero => intro i p vals g _ _ _; rfl
  | succ k ih =>
    intro i p vals g hblank hpos hfail
    by_cases hi : i < vals.length
    · by_cases hcv : checkValue (vals.getD i 0) (pos / 9) (pos % 9) p = true
      · rcases hnx : next (setCell p (pos / 9) (pos % 9) (vals.getD i 0)) vals g
          with ⟨ok2, p2, vals2, g2⟩
        have hblank1 : ∀ j, pos + 1 ≤ j → j < 81 →
            getCell (setCell p (pos / 9) (pos % 9) (vals.getD i 0))
              (j / 9) (j % 9) = 0 := by
          intro j hj1 hj2
          rw [getCell_setCell_ne p _ (show pos / 9 ≠ j / 9 ∨ pos % 9 ≠ j % 9
            by omega)]
          exact hblank j (by omega) hj2
        cases ok2 with
        | true =>
          have hres : tryValues next pos (k + 1) i p vals g
              = (true, p2, vals2, g2) := by
            simp only [tryValues, if_pos hi, if_pos hcv, hnx]
          rw [hres] at hfail
          exact Bool.noConfusion hfail
        | false =>
          have hp2 : p2 = setCell p (pos / 9) (pos % 9) (vals.getD i 0) := by
            have := Hnext (setCell p (pos / 9) (pos % 9) (vals.getD i 0))
              vals g hblank1
            rw [hnx] at this
            exact this rfl
          have hback : setCell p2 (pos / 9) (pos % 9) 0 = p := by
            rw [hp2, setCell_setCell]
            have h0 : getCell p (pos / 9) (pos % 9) = 0 :=
              hblank pos (Nat.le_refl pos) hpos
            calc setCell p (pos / 9) (pos % 9) 0
                = setCell p (pos / 9) (pos % 9) (getCell p (pos / 9) (pos % 9)) := by
                  rw [h0]
              _ = p := setCell_getCell_self p _ _
          have hres : tryValues next pos (k + 1) i p vals g
              = tryValues next pos k (i + 1)
                  (setCell p2 (pos / 9) (pos % 9) 0) vals2 g2 := by
            simp only [tryValues, if_pos hi, if_pos hcv, hnx]
          rw [hres] at hfail ⊢
          rw [hback] at hfail ⊢
          exact ih (i + 1) p vals2 g2 hblank hpos hfail
      · have hres : tryValues next pos (k + 1) i p vals g
            = tryValues next pos k (i + 1) p vals g := by
          simp only [tryValues, if_pos hi, if_neg hcv]
        rw [hres] at hfail ⊢
        exact ih (i + 1) p vals g hblank hpos hfail
    · have hres : tryValues next pos (k + 1) i p vals g = (false, p, vals, g) := by
        simp only [tryValues, if_neg hi]
      rw [hres]

theorem fillCellGo_restore :
    ∀ (rem pos : Nat) (p : Board) (vals : List Nat) (g : Rng),
      pos + rem = 81 →
      (∀ j, pos ≤ j → j < 81 → getCell p (j / 9) (j % 9) = 0) →
      (fillCellGo rem pos p vals g).1 = false →
      (fillCellGo rem pos p vals g).2.1 = p := by
  intro rem
  induction rem with
  | zero => intro pos p vals g _ _ hfail; exact Bool.noConfusion hfail
  | succ rem ih =>
    intro pos p vals g hsum hblank hfail
    rcases hsh : shuffleValues vals g with ⟨vals1, g1⟩
    have hres : fillCellGo (rem + 1) pos p vals g
        = tryValues (fillCellGo rem (pos + 1)) pos vals1.length 0 p vals1 g1 := by
      simp only [fillCellGo, hsh]
    rw [hres] at hfail ⊢
    exact tryValues_restore (fillCellGo rem (pos + 1)) pos
      (fun q vals' g' hq => ih (pos + 1) q vals' g' (by omega) hq)
      vals1.length 0 p vals1 g1 hblank (by omega) hfail

theorem tryNums_restore (next : Board → Bool × Board) (pos : Nat)
    (Hnext : ∀ q : Board, (next q).1 = false → (next q).2 = q) :
    ∀ (nums : List Nat) (p : Board),
      getCell p (pos / 9) (pos % 9) = 0 →
      (tryNums next pos nums p).1 = false →
      (tryNums next pos nums p).2 = p := by
  intro nums
  induction nums with
  | nil => intro p _ _; rfl
  | cons num rest ih =>
    intro p h0 hfail
    by_cases hcv : checkValue num (pos / 9) (pos % 9) p = true
    · rcases hnx : next (setCell p (pos / 9) (pos % 9) num) with ⟨ok2, p2⟩
      cases ok2 with
      | true =>
        have hres : tryNums next pos (num :: rest) p = (true, p2) := by
          simp only [tryNums, if_pos hcv, hnx]
        rw [hres] at hfail
        exact Bool.noConfusion hfail
      | false =>
        have hp2 : p2 = setCell p (pos / 9) (pos % 9) num := by
          have := Hnext (setCell p (pos / 9) (pos % 9) num)
          rw [hnx] at this
          exact this rfl
        have hback : setCell p2 (pos / 9) (pos % 9) 0 = p := by
          rw [hp2, setCell_setCell]
          calc setCell p (pos / 9) (pos % 9) 0
              = setCell p (pos / 9) (pos % 9) (getCell p (pos / 9) (pos % 9)) := by
                rw [h0]
            _ = p := setCell_getCell_self p _ _
        have hres : tryNums next pos (num :: rest) p
            = tryNums next pos rest (setCell p2 (pos / 9) (pos % 9) 0) := by
          simp only [tryNums, if_pos hcv, hnx]
        rw [hres] at hfail ⊢
        rw [hback] at hfail ⊢
        exact ih p h0 hfail
    · have hres : tryNums next pos (num :: rest) p = tryNums next pos rest p := by
        simp only [tryNums, if_neg hcv]
      rw [hres] at hfail ⊢
      exact ih p h0 hfail

/-- A failed `solveCell` search hands back exactly the board it was
given, whatever that board is. -/
theorem solveCellGo_restore :
    ∀ (rem pos : Nat) (p : Board),
      (solveCellGo rem pos p).1 = false → (solveCellGo rem pos p).2 = p := by
  intro rem
  induction rem with
  | zero => intro pos p hfail; exact Bool.noConfusion hfail
  | succ rem ih =>
    intro pos p hfail
    by_cases hfill : (getCell p (pos / 9) (pos % 9) != 0) = true
    · have hres : solveCellGo (rem + 1) pos p = solveCellGo rem (pos + 1) p := by
        simp only [solveCellGo, if_pos hfill]
      rw [hres] at hfail ⊢
      exact ih (pos + 1) p hfail
    · have h0 : getCell p (pos / 9) (pos % 9) = 0 := by
        simpa using hfill
      have hres : solveCellGo (rem + 1) pos p
          = tryNums (solveCellGo rem (pos + 1)) pos
              [1, 2, 3, 4, 5, 6, 7, 8, 9] p := by
        simp only [solveCellGo, if_neg hfill]
      rw [hres] at hfail ⊢
      exact tryNums_restore (solveCellGo rem (pos + 1)) pos
        (fun q => ih (pos + 1) q) [1, 2, 3, 4, 5, 6, 7, 8, 9] p h0 hfail

/-! ### The reducer: solvability invariant, frame, and blank count -/

/-- Undoing a removal restores the previous board exactly. -/
theorem revert_restores (p : Board) (row col : Nat) :
    setCell (setCell p row col 0) row col (getCell p row col) = p := by
  rw [setCell_setCell, setCell_getCell_self]

theorem removeGo_solvable :
    ∀ (fuel : Nat) (p : Board) (attempts : Nat) (g : Rng) (out : Board × Rng),
      isSolvable p = true → removeGo fuel p attempts g = some out →
      isSolvable out.1 = true := by
  intro fuel
  induction fuel with
  | zero =>
    intro p attempts g out hsolv hout
    cases attempts with
    | zero =>
      injection hout with h
      rw [← h]
      exact hsolv
    | succ a => exact Option.noConfusion hout
  | succ fuel ih =>
    intro p attempts g out hsolv hout
    cases attempts with
    | zero =>
      injection hout with h
      rw [← h]
      exact hsolv
    | succ a =>
      rcases h1 : randBelow 9 g with ⟨row, g1⟩
      rcases h2 : randBelow 9 g1 with ⟨col, g2⟩
      by_cases hzero : getCell p row col = 0
      · have hres : removeGo (fuel + 1) p (a + 1) g = removeGo fuel p (a + 1) g2 := by
          simp only [removeGo, h1, h2, if_pos hzero]
        rw [hres] at hout
        exact ih p (a + 1) g2 out hsolv hout
      · by_cases hsv : isSolvable (setCell p row col 0) = true
        · have hres : removeGo (fuel + 1) p (a + 1) g
              = removeGo fuel (setCell p row col 0) a g2 := by
            simp only [removeGo, h1, h2, if_neg hzero, if_pos hsv]
          rw [hres] at hout
          exact ih (setCell p row col 0) a g2 out hsv hout
        · have hres : removeGo (fuel + 1) p (a + 1) g
              = removeGo fuel
                  (setCell (setCell p row col 0) row col (getCell p row col))
                  (a + 1) g2 := by
            simp only [removeGo, h1, h2, if_neg hzero, if_neg hsv]
          rw [hres, revert_restores] at hout
          exact ih p (a + 1) g2 out hsolv hout

theorem removeGo_frame :
    ∀ (fuel : Nat) (p : Board) (attempts : Nat) (g : Rng) (out : Board × Rng),
      removeGo fuel p attempts g = some out →
      ∀ r c, getCell out.1 r c = 0 ∨ getCell out.1 r c = getCell p r c := by
  intro fuel
  induction fuel with
  | zero =>
    intro p attempts g out hout r c
    cases attempts with
    | zero =>
      injection hout with h
      rw [← h]
      exact Or.inr rfl
    | succ a => exact Option.noConfusion hout
  | succ fuel ih =>
    intro p attempts g out hout r c
    cases attempts with
    | zero =>
      injection hout with h
      rw [← h]
      exact Or.inr rfl
    | succ a =>
      rcases h1 : randBelow 9 g with ⟨row, g1⟩
      rcases h2 : randBelow 9 g1 with ⟨col, g2⟩
      by_cases hzero : getCell p row col = 0
      · have hres : removeGo (fuel + 1) p (a + 1) g = removeGo fuel p (a + 1) g2 := by
          simp only [removeGo, h1, h2, if_pos hzero]
        rw [hres] at hout
        exact ih p (a + 1) g2 out hout r c
      · by_cases hsv : isSolvable (setCell p row col 0) = true
        · have hres : removeGo (fuel + 1) p (a + 1) g
              = removeGo fuel (setCell p row col 0) a g2 := by
            simp only [removeGo, h1, h2, if_neg hzero, if_pos hsv]
          rw [hres] at hout
          rcases ih (setCell p row col 0) a g2 out hout r c with h | h
          · exact Or.inl h
          · by_cases hcell : row = r ∧ col = c
            · left
              rw [h, ← hcell.1, ← hcell.2]
              obtain ⟨hbr, hbc⟩ := bounds_of_getCell_ne_zero hzero
              exact getCell_setCell_self p 0 hbr hbc
            · right
              rw [h, getCell_setCell_ne p 0 (by tauto)]
        · have hres : removeGo (fuel + 1) p (a + 1) g
              = removeGo fuel
                  (setCell (setCell p row col 0) row col (getCell p row col))
                  (a + 1) g2 := by
            simp only [removeGo, h1, h2, if_neg hzero, if_neg hsv]
          rw [hres, revert_restores] at hout
          exact ih p (a + 1) g2 out hout r c

theorem removeGo_zeros :
    ∀ (fuel : Nat) (p : Board) (attempts : Nat) (g : Rng) (out : Board × Rng),
      removeGo fuel p attempts g = some out →
      countZeros out.1 = countZeros p + attempts := by
  intro fuel
  induction fuel with
  | zero =>
    intro p attempts g out hout
    cases attempts with
    | zero =>
      injection hout with h
      rw [← h]
      rfl
    | succ a => exact Option.noConfusion hout
  | succ fuel ih =>
    intro p attempts g out hout
    cases attempts with
    | zero =>
      injection hout with h
      rw [← h]
      rfl
    | succ a =>
      rcases h1 : randBelow 9 g with ⟨row, g1⟩
      rcases h2 : randBelow 9 g1 with ⟨col, g2⟩
      have hrow : row < 9 := by
        have := randBelow_lt g (show 0 < 9 by omega)
        rw [h1] at this
        exact this
      have hcol : col < 9 := by
        have := randBelow_lt g1 (show 0 < 9 by omega)
        rw [h2] at this
        exact this
      by_cases hzero : getCell p row col = 0
      · have hres : removeGo (fuel + 1) p (a + 1) g = removeGo fuel p (a + 1) g2 := by
          simp only [removeGo, h1, h2, if_pos hzero]
        rw [hres] at hout
        exact ih p (a + 1) g2 out hout
      · by_cases hsv : isSolvable (setCell p row col 0) = true
        · have hres : removeGo (fuel + 1) p (a + 1) g
              = removeGo fuel (setCell p row col 0) a g2 := by
            simp only [removeGo, h1, h2, if_neg hzero, if_pos hsv]
          rw [hres] at hout
          have := ih (setCell p row col 0) a g2 out hout
          rw [countZeros_setCell_zero hrow hcol hzero] at this
          omega
        · have hres : removeGo (fuel + 1) p (a + 1) g
              = removeGo fuel
                  (setCell (setCell p row col 0) row col (getCell p row col))
                  (a + 1) g2 := by
            simp only [removeGo, h1, h2, if_neg hzero, if_neg hsv]
          rw [hres, revert_restores] at hout
          exact ih p (a + 1) g2 out hout

/-- On an all-blank board, the removal loop only ever skips, so it never
returns while attempts remain. -/
theorem removeGo_blank_none :
    ∀ (fuel a : Nat) (g : Rng),
      removeGo fuel createBlankPuzzle (a + 1) g = none := by
  intro fuel
  induction fuel with
  | zero => intro a g; rfl
  | succ fuel ih =>
    intro a g
    rcases h1 : randBelow 9 g with ⟨row, g1⟩
    rcases h2 : randBelow 9 g1 with ⟨col, g2⟩
    have hres : removeGo (fuel + 1) createBlankPuzzle (a + 1) g
        = removeGo fuel createBlankPuzzle (a + 1) g2 := by
      simp only [removeGo, h1, h2, if_pos (getCell_blank row col)]
    rw [hres]
    exact ih a g2

/-- The blank count of every board `generatePuzzle` returns is exactly
the difficulty table entry: 50 for "h", 40 for "m", 30 otherwise. -/
theorem generatePuzzle_zeros :
    ∀ (fuel : Nat) (g : Rng) (d : String) (out : Board × Rng),
      generatePuzzle fuel g d = some out →
      countZeros out.1
        = (if d = "h" then 50 else if d = "m" then 40 else 30) := by
  intro fuel g d out hout
  simp only [generatePuzzle, createPuzzle, removeCellsWithGuarantee, fillCell]
    at hout
  cases hfill : (fillCellGo 81 0 createBlankPuzzle [1, 2, 3, 4, 5, 6, 7, 8, 9] g).1
  · have hrest := fillCellGo_restore 81 0 createBlankPuzzle
      [1, 2, 3, 4, 5, 6, 7, 8, 9] g rfl
      (fun j _ _ => getCell_blank (j / 9) (j % 9)) hfill
    rw [hrest] at hout
    obtain ⟨k, hk⟩ : ∃ k, (if d = "h" then 50 else if d = "m" then 40 else 30)
        = k + 1 := by
      split_ifs <;> exact ⟨_, rfl⟩
    rw [hk, removeGo_blank_none] at hout
    exact Option.noConfusion hout
  · obtain ⟨_, _, _, hfilled⟩ := fillCellGo_spec 81 0 createBlankPuzzle
      [1, 2, 3, 4, 5, 6, 7, 8, 9] g rfl WF_blank (by decide)
    have hzero : countZeros
        (fillCellGo 81 0 createBlankPuzzle [1, 2, 3, 4, 5, 6, 7, 8, 9] g).2.1
        = 0 := by
      apply countZeros_eq_zero
      intro i hi
      have := hfilled hfill i (Nat.zero_le i) hi
      omega
    have := removeGo_zeros fuel _ _ _ out hout
    rw [hzero] at this
    omega

/-! ### Characterisation of the placement-validity check -/

theorem mem_idx9 {x : Nat} : x ∈ idx9 ↔ x < 9 := by
  simp only [idx9, List.mem_cons, List.mem_singleton, List.not_mem_nil, or_false]
  omega

theorem mem_idx3 {x : Nat} : x ∈ idx3 ↔ x < 3 := by
  simp only [idx3, List.mem_cons, List.mem_singleton, List.not_mem_nil, or_false]
  omega

theorem checkRow_iff (p : Board) (row num : Nat) :
    checkRow row num p = true ↔ ∀ c, c < 9 → getCell p row c ≠ num := by
  simp only [checkRow, List.all_eq_true, bne_iff_ne]
  constructor
  · intro h c hc
    exact h c (mem_idx9.mpr hc)
  · intro h c hc
    exact h c (mem_idx9.mp hc)

theorem checkCol_iff (p : Board) (col num : Nat) :
    checkCol col num p = true ↔ ∀ r, r < 9 → getCell p r col ≠ num := by
  simp only [checkCol, List.all_eq_true, bne_iff_ne]
  constructor
  · intro h r hr
    exact h r (mem_idx9.mpr hr)
  · intro h r hr
    exact h r (mem_idx9.mp hr)

theorem checkBox_getBox_iff (p : Board) (r c num : Nat) (hr : r < 9)
    (hc : c < 9) :
    checkBox (getBox r c) num p = true
      ↔ ∀ r' c', r' < 9 → c' < 9 → r' / 3 = r / 3 → c' / 3 = c / 3 →
          getCell p r' c' ≠ num := by
  have hb1 : (getBox r c - 1) / 3 * 3 = r / 3 * 3 := by
    unfold getBox
    omega
  have hb2 : (getBox r c - 1) % 3 * 3 = c / 3 * 3 := by
    unfold getBox
    omega
  simp only [checkBox, List.all_eq_true, bne_iff_ne, hb1, hb2]
  constructor
  · intro h r' c' hr' hc' hrr hcc
    have key := h (r' % 3) (mem_idx3.mpr (by omega)) (c' % 3)
      (mem_idx3.mpr (by omega))
    have e1 : r / 3 * 3 + r' % 3 = r' := by omega
    have e2 : c / 3 * 3 + c' % 3 = c' := by omega
    rwa [e1, e2] at key
  · intro h i hi j hj
    rw [mem_idx3] at hi hj
    exact h (r / 3 * 3 + i) (c / 3 * 3 + j) (by omega) (by omega)
      (by omega) (by omega)

/-- `checkValue` says yes exactly when the digit is absent from the row,
absent from the column, and absent from the 3×3 box of the cell. -/
theorem checkValue_iff (p : Board) (r c num : Nat) (hr : r < 9) (hc : c < 9) :
    checkValue num r c p = true
      ↔ (∀ c', c' < 9 → getCell p r c' ≠ num)
        ∧ (∀ r', r' < 9 → getCell p r' c ≠ num)
        ∧ (∀ r' c', r' < 9 → c' < 9 → r' / 3 = r / 3 → c' / 3 = c / 3 →
            getCell p r' c' ≠ num) := by
  simp only [checkValue, Bool.and_eq_true]
  rw [checkRow_iff, checkCol_iff, checkBox_getBox_iff p r c num hr hc]
  tauto

/-! ### Dimension errors: what the checks do out of range -/

theorem checkRowEGo_ok (p : Board) (row num : Nat) (h : row < p.length) :
    ∀ cs : List Nat, ∃ b, checkRowEGo row num p cs = Except.ok b := by
  intro cs
  induction cs with
  | nil => exact ⟨true, rfl⟩
  | cons c rest ih =>
    simp only [checkRowEGo, readCellE, dif_pos h]
    by_cases hv : (p.get ⟨row, h⟩).get? c = some num
    · exact ⟨false, by rw [if_pos hv]⟩
    · obtain ⟨b, hb⟩ := ih
      exact ⟨b, by rw [if_neg hv]; exact hb⟩

theorem checkColEGo_ok (p : Board) (col num : Nat) :
    ∀ cs : List Nat, (∀ r ∈ cs, r < p.length) →
      ∃ b, checkColEGo col num p cs = Except.ok b := by
  intro cs
  induction cs with
  | nil => exact fun _ => ⟨true, rfl⟩
  | cons r rest ih =>
    intro hmem
    have hr : r < p.length := hmem r (List.mem_cons_self r rest)
    simp only [checkColEGo, readCellE, dif_pos hr]
    by_cases hv : (p.get ⟨r, hr⟩).get? col = some num
    · exact ⟨false, by rw [if_pos hv]⟩
    · obtain ⟨b, hb⟩ := ih fun x hx => hmem x (List.mem_cons_of_mem r hx)
      exact ⟨b, by rw [if_neg hv]; exact hb⟩

theorem checkBoxEGo_ok (p : Board) (box num : Nat) :
    ∀ cells : List (Nat × Nat),
      (∀ ij ∈ cells, (box - 1) / 3 * 3 + ij.1 < p.length) →
      ∃ b, checkBoxEGo box num p cells = Except.ok b := by
  intro cells
  induction cells with
  | nil => exact fun _ => ⟨true, rfl⟩
  | cons ij rest ih =>
    intro hmem
    obtain ⟨i, j⟩ := ij
    have hr : (box - 1) / 3 * 3 + i < p.length :=
      hmem (i, j) (List.mem_cons_self _ rest)
    simp only [checkBoxEGo, readCellE, dif_pos hr]
    by_cases hv : (p.get ⟨(box - 1) / 3 * 3 + i, hr⟩).get? ((box - 1) % 3 * 3 + j)
        = some num
    · exact ⟨false, by rw [if_pos hv]⟩
    · obtain ⟨b, hb⟩ := ih fun x hx => hmem x (List.mem_cons_of_mem _ hx)
      exact ⟨b, by rw [if_neg hv]; exact hb⟩

/-- On a 9×9 grid there is no `InvalidDimension` check: an out-of-range
*row* index makes `checkValue` throw a plain `TypeError` while an
out-of-range *column* index is read as `undefined`, never matches, and
the check returns an ordinary boolean as if the indices were legal. -/
theorem checkValueE_out_of_range (p : Board) (num : Nat) (hp : WF p) :
    checkValueE num 9 0 p = Except.error "TypeError" ∧
    ∃ b, checkValueE num 0 9 p = Except.ok b := by
  constructor
  · have h9 : ¬ (9 < p.length) := by
      rw [hp.1]
      omega
    have hrow : checkRowE 9 num p = Except.error "TypeError" := by
      simp only [checkRowE, idx9, checkRowEGo, readCellE, dif_neg h9]
    simp only [checkValueE, hrow]
  · obtain ⟨b1, hb1⟩ := checkRowEGo_ok p 0 num (by rw [hp.1]; omega) idx9
    have hb1' : checkRowE 0 num p = Except.ok b1 := hb1
    cases b1
    · exact ⟨false, by simp only [checkValueE, hb1']⟩
    · obtain ⟨b2, hb2⟩ := checkColEGo_ok p 9 num idx9
        (fun r hr => by rw [hp.1]; exact mem_idx9.mp hr)
      have hb2' : checkColE 9 num p = Except.ok b2 := hb2
      cases b2
      · exact ⟨false, by simp only [checkValueE, hb1', hb2']⟩
      · obtain ⟨b3, hb3⟩ := checkBoxEGo_ok p (getBox 0 9) num
          [(0, 0), (0, 1), (0, 2), (1, 0), (1, 1), (1, 2), (2, 0), (2, 1), (2, 2)]
          (by
            intro ij hij
            rw [hp.1]
            fin_cases hij <;> decide)
        have hb3' : checkBoxE (getBox 0 9) num p = Except.ok b3 := hb3
        exact ⟨b3, by simp only [checkValueE, hb1', hb2', hb3']⟩

/-! ### The claims -/

set_option maxRecDepth 10000
set_option maxHeartbeats 4000000

/-- C4 (confirmed): on a 9×9 board, for a cell in range and a digit 1–9,
`checkValue` (the placement-validity check) returns `true` exactly when
the digit does not already occur in the cell's row, in its column, or in
the 3×3 box containing the cell. -/
theorem C4_checkValue_iff (p : Board) (r c num : Nat) (_hp : WF p)
    (hr : r < 9) (hc : c < 9) (_h1 : 1 ≤ num) (_h9 : num ≤ 9) :
    checkValue num r c p = true
      ↔ (∀ c', c' < 9 → getCell p r c' ≠ num)
        ∧ (∀ r', r' < 9 → getCell p r' c ≠ num)
        ∧ (∀ r' c', r' < 9 → c' < 9 → r' / 3 = r / 3 → c' / 3 = c / 3 →
            getCell p r' c' ≠ num) :=
  checkValue_iff p r c num hr hc

/-- Witness for C4 at the blank board, cell (0,0), digit 5. -/
theorem C4_witness :
    checkValue 5 0 0 createBlankPuzzle = true
      ↔ (∀ c', c' < 9 → getCell createBlankPuzzle 0 c' ≠ 5)
        ∧ (∀ r', r' < 9 → getCell createBlankPuzzle r' 0 ≠ 5)
        ∧ (∀ r' c', r' < 9 → c' < 9 → r' / 3 = 0 / 3 → c' / 3 = 0 / 3 →
            getCell createBlankPuzzle r' c' ≠ 5) :=
  C4_checkValue_iff createBlankPuzzle 0 0 5 WF_blank (by decide) (by decide)
    (by decide) (by decide)

/-- C5 (confirmed): starting from a solvable board, whenever
`removeCellsWithGuarantee` returns, the resulting board is still
solvable — a removal that breaks solvability is reverted before the loop
continues, so solvability is an invariant of the reducer. -/
theorem C5_removal_keeps_solvable (fuel : Nat) (p : Board) (blanks : Nat)
    (g : Rng) (out : Board × Rng) (hsolv : isSolvable p = true)
    (hout : removeCellsWithGuarantee fuel p blanks g = some out) :
    isSolvable out.1 = true :=
  removeGo_solvable fuel p blanks g out hsolv hout

/-- Witness for C5: one removal from the complete board `canonicalB`. -/
theorem C5_witness : isSolvable canonicalB44 = true :=
  C5_removal_keeps_solvable 2 canonicalB 1 [4, 4] (canonicalB44, [])
    (by rfl) (by rfl)

/-- C7 (corrected) counterexample: on the random stream `[1]` (then
zeros) the engine's shuffle and the Fisher–Yates reference shuffle of
the spec produce different arrays, so `shuffleValues` does not implement
Fisher–Yates. -/
theorem C7_counterexample :
    (shuffleValues [1, 2, 3, 4, 5, 6, 7, 8, 9] [1]).1
      ≠ (fisherYates [1, 2, 3, 4, 5, 6, 7, 8, 9] [1]).1 := by decide

/-- C7 (corrected, amended): the shuffle is `values.length` iterations,
each swapping two independently chosen random spots; for every random
stream the result is still a permutation of the input array. -/
theorem C7_shuffle_perm (l : List Nat) (g : Rng) :
    (shuffleValues l g).1.Perm l :=
  shuffleValues_perm l g

/-- C8 (corrected) counterexample: a column index outside 0–8 does not
fail fast with any condition — the digit is compared against
`undefined`, never matches, and the combined check silently answers
`true` on the blank board. -/
theorem C8_counterexample :
    checkValueE 5 0 9 createBlankPuzzle = Except.ok true := by rfl

/-- C8 (corrected, amended): there is no `InvalidDimension` condition:
on any 9×9 grid a row index out of range throws a generic `TypeError`
when the missing row is dereferenced, while a column index out of range
is silently read as `undefined` and the check returns an ordinary
boolean verdict. -/
theorem C8_no_invalid_dimension (p : Board) (num : Nat) (hp : WF p) :
    checkValueE num 9 0 p = Except.error "TypeError" ∧
    ∃ b, checkValueE num 0 9 p = Except.ok b :=
  checkValueE_out_of_range p num hp

/-- Witness for C8 on the concrete complete board. -/
theorem C8_witness :
    checkValueE 5 9 0 canonicalB = Except.error "TypeError" ∧
    ∃ b, checkValueE 5 0 9 canonicalB = Except.ok b :=
  C8_no_invalid_dimension canonicalB 5 ⟨by rfl, by decide⟩

/-- C9 (confirmed): the reducer only blanks cells — whenever
`removeCellsWithGuarantee` returns, every cell either is 0 or holds
exactly the digit it held in the input board, so every remaining clue
agrees with the complete board it came from. -/
theorem C9_only_blanks (fuel : Nat) (p : Board) (blanks : Nat) (g : Rng)
    (out : Board × Rng)
    (hout : removeCellsWithGuarantee fuel p blanks g = some out) :
    ∀ r c, getCell out.1 r c = 0 ∨ getCell out.1 r c = getCell p r c :=
  removeGo_frame fuel p blanks g out hout

/-- Witness for C9: one removal from `canonicalB`, read at cell (4,4). -/
theorem C9_witness :
    getCell canonicalB44 4 4 = 0
      ∨ getCell canonicalB44 4 4 = getCell canonicalB 4 4 :=
  C9_only_blanks 2 canonicalB 1 [4, 4] (canonicalB44, []) (by rfl) 4 4

/-- C10 (corrected) counterexample: on `overwriteB` (row 0 holds
`1 1 2 3 4 5 6 7 8`, every other cell 1) `fillCell` returns `false`
but the board it leaves behind is *not* the input board: the given
digit at (0,0) has been overwritten and reset to 0. -/
theorem C10_counterexample :
    (fillCell overwriteB [1, 2, 3, 4, 5, 6, 7, 8, 9] []).1 = false ∧
    (fillCell overwriteB [1, 2, 3, 4, 5, 6, 7, 8, 9] []).2.1 ≠ overwriteB := by
  refine ⟨by rfl, ?_⟩
  decide

/-- C10 (corrected, amended): a failed `solveCell` search restores the
board exactly, on every input; a failed `fillCell` search restores the
board exactly when the cells from its starting position on are blank
(as on the blank board of `createPuzzle`) — but not in general, as the
counterexample shows. -/
theorem C10_restore :
    (∀ (rem pos : Nat) (p : Board),
      (solveCellGo rem pos p).1 = false → (solveCellGo rem pos p).2 = p) ∧
    (∀ (rem pos : Nat) (p : Board) (vals : List Nat) (g : Rng),
      pos + rem = 81 →
      (∀ j, pos ≤ j → j < 81 → getCell p (j / 9) (j % 9) = 0) →
      (fillCellGo rem pos p vals g).1 = false →
      (fillCellGo rem pos p vals g).2.1 = p) :=
  ⟨solveCellGo_restore, fillCellGo_restore⟩

/-- Witness for C10: a failing solve on the uncompletable board
`unsolv40` and the failing fill run of `demoStream`, both restored. -/
theorem C10_witness :
    (solveCellGo 81 0 unsolv40).2 = unsolv40 ∧
    (fillCellGo 42 39 start39 [1, 2, 3, 4, 5, 6, 7, 8, 9] demoStream).2.1
      = start39 :=
  ⟨C10_restore.1 81 0 unsolv40 (by rfl),
   C10_restore.2 42 39 start39 [1, 2, 3, 4, 5, 6, 7, 8, 9] demoStream
     (by rfl)
     (fun j hj1 hj2 =>
       (by decide : ∀ j, j < 81 → 39 ≤ j →
         getCell start39 (j / 9) (j % 9) = 0) j hj2 hj1)
     (by rfl)⟩

/-- C3 (corrected) counterexample: reducing the complete board
`canonicalB` by 4 cells — the swappable rectangle (0,0), (0,1), (3,0),
(3,1) — returns a puzzle whose solution count under the spec's
`countSolutions` with limit 2 is 2, not 1: no uniqueness guarantee is
enforced. -/
theorem C3_counterexample :
    (removeGo 5 canonicalB 4 rectStream).map
      (fun out => countSolutionsSpec out.1 2) = some 2 := by rfl

/-- C3 (corrected, amended): the guarantee the reducer actually
re-validates is plain solvability: the same concrete run returns with
`isSolvable` true while two completions exist. -/
theorem C3_solvability_only :
    (removeGo 5 canonicalB 4 rectStream).map
      (fun out => (isSolvable out.1, countSolutionsSpec out.1 2))
      = some (true, 2) := by rfl

/-- C2 (code bug) demonstration: launched at cell (4,3) of `start39` —
a board that the complete valid board `canonicalB` extends — the fill
reports failure: the deeper recursive call re-shuffles the shared
`values` array while the loop at (4,3) is still indexing into it, so
digits 8 and 9 are never tried there and the backtracking search is not
exhaustive. -/
theorem C2_fill_misses_digits :
    (fillCellGo 42 39 start39 [1, 2, 3, 4, 5, 6, 7, 8, 9] demoStream).1
      = false ∧
    isCompletionOf canonicalB start39 = true :=
  ⟨by rfl, by rfl⟩

/-- The fully evaluated concrete generation run: with `genStreamE` the
greedy fill succeeds, 30 removals all keep the board solvable, the
stream is consumed exactly, and the single returned board is `puzzleE`.
(Proved once by evaluation; reused by the claims below.) -/
theorem genE_eq : generatePuzzle 40 genStreamE "e" = some (puzzleE, []) := by
  rfl

/-- C6 (confirmed): whenever `generatePuzzle` returns, the returned
board has exactly 50 blanks for label "h", 40 for "m", and 30 for every
other label (the unrecognized-label fallback). -/
theorem C6_blank_counts (fuel : Nat) (g : Rng) (d : String)
    (out : Board × Rng) (hout : generatePuzzle fuel g d = some out) :
    countZeros out.1 = (if d = "h" then 50 else if d = "m" then 40 else 30) :=
  generatePuzzle_zeros fuel g d out hout

/-- Witness for C6: the evaluated run with label "e" has 30 blanks. -/
theorem C6_witness : countZeros puzzleE = 30 :=
  C6_blank_counts 40 genStreamE "e" (puzzleE, []) genE_eq

/-- C1 (code bug) demonstration: the value `generatePuzzle` hands back
is one single board — the solved board mutated in place by the reducer —
and in the evaluated run that board has 30 blank cells, so it is not a
complete solution grid and no `{puzzle, solution}` pair exists for the
caller (`script.js`) to destructure. -/
theorem C1_single_partial_board :
    generatePuzzle 40 genStreamE "e" = some (puzzleE, [])
      ∧ countZeros puzzleE ≠ 0 :=
  ⟨genE_eq, by decide⟩

end Engine
